import Mathlib

/-!
# Verification of the log-cache-cli streaming tail engine and Meta command

This file embeds the core of the `log-cache-cli` repository in Lean 4:

* the streaming tail engine (envelope data model, envelope renderer,
  cursor & dedup tracker, one-shot and follow orchestration) — the engine's
  implementation file is not part of the source tree snapshot (only its test
  suite `src/pkg/command/tail_test.go` is), so these definitions are modelled
  from the specification (`spec.md` §3, §4.2–§4.5, §7), cross-checked against
  the literal formats and wire bodies pinned by the test suite;
* the `Meta` command's batched name resolution and scope validation,
  translated directly from `src/internal/command/meta.go`.
-/

namespace LogCacheCLI

/-! ## Envelope data model (spec §3) -/

/-- Modelled from the spec: log level of a `Log` payload, `{OUT, ERR}` (spec §3). -/
inductive Level
  | out
  | err
deriving DecidableEq, Repr

/-- Modelled from the spec: one gauge metric entry `name → (value, unit)`
(spec §3).  The numeric `float64` value is abstracted as its rendered decimal
string, since the engine only ever formats it into the output line. -/
structure GaugeMetric where
  name : String
  value : String
  unit : String
deriving DecidableEq, Repr

/-- Modelled from the spec: the discriminated payload union of six variants
(spec §3).  Gauge metric entries are kept in the decoder's order, which the
spec requires to be ascending by name («order-preserving by name ascending»). -/
inductive Payload
  | log (body : String) (level : Level)
  | counter (name : String) (total : Nat)
  | gauge (metrics : List GaugeMetric)
  | timer (name : String) (start stop : Int)
  | event (title : String) (body : String)
  | unknown (tags : List (String × String))
deriving DecidableEq, Repr

/-- Modelled from the spec: an immutable envelope record (spec §3).
`timestamp` is signed 64-bit nanoseconds since epoch, embedded as `Int`
(its value space; ordering is all the engine uses it for). -/
structure Envelope where
  source_id : String
  instance_id : String
  timestamp : Int
  payload : Payload
deriving DecidableEq, Repr

/-- Modelled from the spec: envelope identity for deduplication —
«(timestamp, variant, variant-specific key fields)» (spec §3).  The variant
and its key fields are modelled as the whole payload. -/
structure Identity where
  timestamp : Int
  payload : Payload
deriving DecidableEq, Repr

/-- Modelled from the spec: the identity of an envelope (spec §3). -/
def identity (e : Envelope) : Identity :=
  ⟨e.timestamp, e.payload⟩

/-- Modelled from the spec: per-invocation cursor state — `next_start` and the
`seen` identity set (spec §3), the set embedded as a list. -/
structure Cursor where
  nextStart : Int
  seen : List Identity
deriving DecidableEq, Repr

/-- Modelled from the spec: the initial cursor — `start_time` is the sentinel
zero/unset meaning «most recent» (spec §4.1, §6), and nothing has been seen. -/
def initCursor : Cursor :=
  ⟨0, []⟩

/-! ## Stable sort by timestamp (spec §4.3 step 1) -/

/-- Modelled from the spec: insert an envelope into a list, placing it before
the first element whose timestamp is ≥ its own, so that equal-timestamp
elements already present stay in front (stability). -/
def insertByTs (e : Envelope) : List Envelope → List Envelope
  | [] => [e]
  | f :: rest =>
    if e.timestamp ≤ f.timestamp then e :: f :: rest else f :: insertByTs e rest

/-- Modelled from the spec: «Sort the batch ascending by `timestamp`; ties
broken by original server order (stable sort)» (spec §4.3 step 1), as a stable
insertion sort. -/
def sortBatch : List Envelope → List Envelope
  | [] => []
  | e :: rest => insertByTs e (sortBatch rest)

/-! ## Cursor & dedup tracker (spec §4.3 steps 1–4) -/

/-- Modelled from the spec: the Cursor & Dedup Tracker step (spec §4.3):
sort the batch (step 1), drop envelopes whose identity is already in `seen`
(step 2), emit the remainder in sorted order and insert their identities
(step 3), and set `next_start` to the maximum observed timestamp plus one
nanosecond, unchanged on an empty batch (step 4).  Step 5 (bounding the
memory of `seen` by a retention margin) is left out: the spec gives no
concrete margin and the claims under proof do not involve it. -/
def processBatch (c : Cursor) (batch : List Envelope) : List Envelope × Cursor :=
  let sorted := sortBatch batch
  let fresh := sorted.filter (fun e => decide (identity e ∉ c.seen))
  let nextStart :=
    match batch with
    | [] => c.nextStart
    | e :: rest => rest.foldl (fun m x => max m x.timestamp) e.timestamp + 1
  (fresh, ⟨nextStart, c.seen ++ fresh.map identity⟩)

/-! ## Envelope renderer (spec §4.4) -/

/-- Modelled from the spec: `OUT`/`ERR` rendered level text (spec §4.4). -/
def levelText : Level → String
  | .out => "OUT"
  | .err => "ERR"

/-- Modelled from the spec: the variant-specific tail of a rendered line
(spec §4.4): Log `LOG/level body`; Counter `COUNTER name:total`; Gauge
`GAUGE` then each metric as `name:value unit` space-separated in the stored
(ascending-by-name) order; Timer `TIMER duration`; Event `EVENT title:body`;
Unknown `UNKNOWN` then `key:"value"` pairs space-separated.  The human
duration format is abstracted as the injected `fmtDur`. -/
def renderPayload (fmtDur : Int → String) : Payload → String
  | .log body level => "LOG/" ++ levelText level ++ " " ++ body
  | .counter name total => "COUNTER " ++ name ++ ":" ++ toString total
  | .gauge metrics =>
    "GAUGE " ++ String.intercalate " "
      (metrics.map (fun m => m.name ++ ":" ++ m.value ++ " " ++ m.unit))
  | .timer _ start stop => "TIMER " ++ fmtDur (stop - start)
  | .event title body => "EVENT " ++ title ++ ":" ++ body
  | .unknown tags =>
    "UNKNOWN " ++ String.intercalate " "
      (tags.map (fun kv => kv.1 ++ ":\"" ++ kv.2 ++ "\""))

/-- Modelled from the spec: the Envelope Renderer — a pure total function
from one envelope to one line: timestamp (human local format, abstracted as
the injected `fmtTs`) + `[source/instance]` + variant-specific tail
(spec §4.4). -/
def render (fmtTs : Int → String) (fmtDur : Int → String) (e : Envelope) : String :=
  fmtTs e.timestamp ++ " [" ++ e.source_id ++ "/" ++ e.instance_id ++ "] "
    ++ renderPayload fmtDur e.payload

/-! ## Envelope decoder: log records (spec §4.2) -/

/-- Modelled from the spec: the shape of one wire-level log record — an opaque
base64 `payload` and an optional explicit `type` tag (spec §4.2; the test
suite's `responseTemplate` shows `"log":{"payload":..., "type": "ERR"}`). -/
structure LogWire where
  payload : String
  typeTag : Option String
deriving DecidableEq, Repr

/-- Modelled from the spec: «absence of an explicit type tag defaults `level`
to `OUT`; an explicit tag value of `"ERR"` sets `level = ERR`» (spec §4.2);
any other tag text also renders as `OUT`, the default level. -/
def decodeLevel : Option String → Level
  | none => .out
  | some t => if t = "ERR" then .err else .out

/-- The 6-bit value of one base64 alphabet character (RFC 4648 standard
alphabet), `none` for characters outside the alphabet. -/
def base64Val (c : Char) : Option Nat :=
  if 'A' ≤ c ∧ c ≤ 'Z' then some (c.toNat - 'A'.toNat)
  else if 'a' ≤ c ∧ c ≤ 'z' then some (c.toNat - 'a'.toNat + 26)
  else if '0' ≤ c ∧ c ≤ '9' then some (c.toNat - '0'.toNat + 52)
  else if c = '+' then some 62
  else if c = '/' then some 63
  else none

/-- Decode a base64 character stream into the byte values it encodes,
processing one 4-character group (with optional trailing `=` padding) at a
time; `none` on any malformed group. -/
def base64Decode : List Char → Option (List Nat)
  | [] => some []
  | [c1, c2, '=', '='] => do
    let v1 ← base64Val c1
    let v2 ← base64Val c2
    pure [v1 * 4 + v2 / 16]
  | [c1, c2, c3, '='] => do
    let v1 ← base64Val c1
    let v2 ← base64Val c2
    let v3 ← base64Val c3
    pure [v1 * 4 + v2 / 16, v2 % 16 * 16 + v3 / 4]
  | c1 :: c2 :: c3 :: c4 :: rest => do
    let v1 ← base64Val c1
    let v2 ← base64Val c2
    let v3 ← base64Val c3
    let v4 ← base64Val c4
    let tail ← base64Decode rest
    pure ([v1 * 4 + v2 / 16, v2 % 16 * 16 + v3 / 4, v3 % 4 * 64 + v4] ++ tail)
  | _ => none

/-- Modelled from the spec: decoded bytes «rendered as UTF-8 text»
(spec §4.2), abstracted as the codepoint-per-byte (Latin-1) reading, which
agrees with UTF-8 on all ASCII bodies. -/
def bytesToText (bs : List Nat) : String :=
  String.mk (bs.map Char.ofNat)

/-- Modelled from the spec: strip a single trailing newline from the decoded
body text (spec §4.2, «trailing newline stripped»). -/
def stripTrailingNewline (s : String) : String :=
  match s.data.getLast? with
  | some c => if c = '\n' then String.mk s.data.dropLast else s
  | none => s

/-- Modelled from the spec: decode a log record's opaque base64 body into its
text form, trailing newline stripped (spec §4.2).  An undecodable payload
falls back to its raw string form («unrepresentable values fall back to their
default string form», spec §4.4). -/
def decodeLogBody (payload : String) : String :=
  match base64Decode payload.data with
  | some bs => stripTrailingNewline (bytesToText bs)
  | none => payload

/-- Modelled from the spec: a record with a `log` field decodes to the `Log`
payload variant (spec §4.2). -/
def decodeLog (r : LogWire) : Payload :=
  .log (decodeLogBody r.payload) (decodeLevel r.typeTag)

/-! ## Tail engine orchestration (spec §4.5, §7) -/

/-- Modelled from the spec: the outcome of one Poll Client invocation —
a decoded batch, or `Unreachable` (with the transport-level cause text),
`Timeout`, or `MalformedResponse` (spec §4.1, §7). -/
inductive PollResult
  | ok (batch : List Envelope)
  | timeout
  | unreachable (cause : String)
  | malformed
deriving DecidableEq, Repr

/-- Modelled from the spec: the fatal error taxonomy (spec §7). -/
inductive TailError
  | invalidArguments
  | timeout
  | unreachable (cause : String)
  | malformedResponse
  | sinkWriteFailure
deriving DecidableEq, Repr

/-- Modelled from the spec: the single descriptive message a fatal condition
surfaces (spec §7); a timeout reports that the request deadline was exceeded
(the test suite pins the substring «context deadline exceeded»), and an
unreachable remote reports the underlying transport cause. -/
def TailError.message : TailError → String
  | .invalidArguments => "expected exactly one source id argument"
  | .timeout => "context deadline exceeded"
  | .unreachable cause => cause
  | .malformedResponse => "malformed response body"
  | .sinkWriteFailure => "write to output sink failed"

/-- Modelled from the spec: write rendered lines to the output sink in order;
`sinkOk` says whether writing a given line succeeds.  Returns the lines
actually written and whether every write succeeded; the first failing write
stops the sequence («a write failure is fatal», spec §4.5). -/
def writeLines (sinkOk : String → Bool) : List String → List String × Bool
  | [] => ([], true)
  | l :: rest =>
    if sinkOk l then
      let (w, ok) := writeLines sinkOk rest
      (l :: w, ok)
    else ([], false)

/-- Modelled from the spec: one-shot mode — exactly one Polling → Rendering
pass from the initial cursor (spec §4.5): a `Timeout`/`Unreachable`/
`MalformedResponse` poll is fatal with no output; an `ok` batch runs through
the Cursor & Dedup Tracker, is rendered by the injected `renderLine`, and is
written to the sink, a write failure being fatal.  Returns the lines written
and the terminal outcome. -/
def runOneShot (renderLine : Envelope → String) (sinkOk : String → Bool)
    (p : PollResult) : List String × Except TailError Unit :=
  match p with
  | .timeout => ([], .error .timeout)
  | .unreachable cause => ([], .error (.unreachable cause))
  | .malformed => ([], .error .malformedResponse)
  | .ok batch =>
    let emit := (processBatch initCursor batch).1
    let wr := writeLines sinkOk (emit.map renderLine)
    (wr.1, if wr.2 then .ok () else .error .sinkWriteFailure)

/-- Modelled from the spec: follow mode — repeat Polling → Rendering →
Waiting until cancelled (spec §4.5), the sequence of poll outcomes before
cancellation given as a list.  `Timeout`/`Unreachable`/`MalformedResponse`
are transient: treated as an empty batch with no cursor advance, the loop
continues (spec §7).  A write failure to the sink aborts the loop immediately
and is the terminal result (spec §5, §7). -/
def runFollow (renderLine : Envelope → String) (sinkOk : String → Bool) :
    List PollResult → Cursor → List String × Except TailError Unit
  | [], _ => ([], .ok ())
  | p :: rest, c =>
    match p with
    | .timeout => runFollow renderLine sinkOk rest c
    | .unreachable _ => runFollow renderLine sinkOk rest c
    | .malformed => runFollow renderLine sinkOk rest c
    | .ok batch =>
      let pr := processBatch c batch
      let wr := writeLines sinkOk (pr.1.map renderLine)
      if wr.2 then
        let next := runFollow renderLine sinkOk rest pr.2
        (wr.1 ++ next.1, next.2)
      else (wr.1, .error .sinkWriteFailure)

/-- The full observable outcome of one tail invocation: the lines written to
the sink, whether any network poll was issued, and the terminal result. -/
structure RunOutcome where
  written : List String
  polled : Bool
  result : Except TailError Unit
deriving Repr

/-- Modelled from the spec: a one-shot tail invocation from its positional
argument list — `Init` validates that exactly one source id argument is
present and fails with `InvalidArguments` otherwise, before any network
request is issued (spec §4.5, §6, §7); with a valid argument list the single
Polling → Rendering pass runs. -/
def executeTail (renderLine : Envelope → String) (sinkOk : String → Bool)
    (args : List String) (p : PollResult) : RunOutcome :=
  match args with
  | [_] =>
    let r := runOneShot renderLine sinkOk p
    ⟨r.1, true, r.2⟩
  | _ => ⟨[], false, .error .invalidArguments⟩

/-! ## Meta command (src/internal/command/meta.go) -/

/-- The batching loop shared verbatim by `getSourceInfo`
(meta.go:205–228) and `getServiceInfo` (meta.go:253–269): while ids remain,
take `n := 50`, lowered to `len(sourceIDs)` when fewer than 50 remain, issue
one lookup call for `sourceIDs[0:n]`, and continue with `sourceIDs[n:]`. -/
def chunkSourceIDs (l : List String) : List (List String) :=
  if h : l = [] then []
  else
    let n := if l.length < 50 then l.length else 50
    l.take n :: chunkSourceIDs (l.drop n)
termination_by l.length
decreasing_by
  simp only [List.length_drop]
  have hl : 0 < l.length := List.length_pos.mpr h
  split <;> omega

/-- The valid `--scope` values of the Meta command (meta.go:321). -/
def validScopes : List String :=
  ["platform", "applications", "all"]

/-- `invalidScope` from meta.go:320–334: the empty scope is explicitly
accepted; otherwise a scope is invalid exactly when it matches none of
`validScopes`. -/
def invalidScope (scope : String) : Bool :=
  if scope = "" then false
  else if validScopes.any (fun s => scope = s) then false
  else true

/-- The guard on the two application row passes of `Meta`
(meta.go:139, meta.go:157): rows print when the scope is `applications` or
`all`. -/
def appsRowPassRuns (scope : String) : Bool :=
  scope = "applications" || scope = "all"

/-- The guard on the platform row pass of `Meta` (meta.go:174): rows print
when the scope is `platform` or `all`. -/
def platformRowPassRuns (scope : String) : Bool :=
  scope = "platform" || scope = "all"

/-- The table rows `Meta` emits after its header, by scope
(meta.go:133–190): the named-application rows and unnamed-application rows
under the applications guard, then the platform rows under the platform
guard. -/
def metaTableRows (scope : String)
    (namedApps unnamedApps platform : List String) : List String :=
  (if appsRowPassRuns scope then namedApps else [])
    ++ (if appsRowPassRuns scope then unnamedApps else [])
    ++ (if platformRowPassRuns scope then platform else [])

/-! ## Helper lemmas -/

theorem insertByTs_perm (e : Envelope) (l : List Envelope) :
    List.Perm (insertByTs e l) (e :: l) := by
  induction l with
  | nil => exact List.Perm.refl _
  | cons f rest ih =>
    rw [insertByTs]
    split
    · exact List.Perm.refl _
    · exact (List.Perm.cons f ih).trans (List.Perm.swap e f rest)

theorem sortBatch_perm (l : List Envelope) : List.Perm (sortBatch l) l := by
  induction l with
  | nil => exact List.Perm.refl _
  | cons e rest ih =>
    rw [sortBatch]
    exact (insertByTs_perm e (sortBatch rest)).trans (ih.cons e)

theorem insertByTs_sorted {l : List Envelope} (e : Envelope)
    (h : List.Sorted (fun a b => a.timestamp ≤ b.timestamp) l) :
    List.Sorted (fun a b => a.timestamp ≤ b.timestamp) (insertByTs e l) := by
  induction l with
  | nil => simp [insertByTs]
  | cons f rest ih =>
    rw [insertByTs]
    rcases List.sorted_cons.mp h with ⟨hf, hrest⟩
    split
    · rename_i hef
      refine List.sorted_cons.mpr ⟨?_, h⟩
      intro b hb
      rcases List.mem_cons.mp hb with rfl | hb
      · exact hef
      · exact le_trans hef (hf b hb)
    · rename_i hef
      refine List.sorted_cons.mpr ⟨?_, ih hrest⟩
      intro b hb
      rcases List.mem_cons.mp ((insertByTs_perm e rest).mem_iff.mp hb) with rfl | hb
      · exact le_of_lt (lt_of_not_le hef)
      · exact hf b hb

theorem sortBatch_sorted (l : List Envelope) :
    List.Sorted (fun a b => a.timestamp ≤ b.timestamp) (sortBatch l) := by
  induction l with
  | nil => simp [sortBatch]
  | cons e rest ih => exact insertByTs_sorted e ih

theorem filter_insertByTs_eq (t : Int) (e : Envelope) (l : List Envelope)
    (het : e.timestamp = t) :
    (insertByTs e l).filter (fun x => decide (x.timestamp = t)) =
      e :: l.filter (fun x => decide (x.timestamp = t)) := by
  induction l with
  | nil => simp [insertByTs, List.filter_cons, het]
  | cons f rest ih =>
    rw [insertByTs]
    split
    · simp [List.filter_cons, het]
    · rename_i hef
      have hft : ¬ f.timestamp = t := by
        have := lt_of_not_le hef
        omega
      simp [List.filter_cons, hft, ih]

theorem filter_insertByTs_ne (t : Int) (e : Envelope) (l : List Envelope)
    (het : ¬ e.timestamp = t) :
    (insertByTs e l).filter (fun x => decide (x.timestamp = t)) =
      l.filter (fun x => decide (x.timestamp = t)) := by
  induction l with
  | nil => simp [insertByTs, List.filter_cons, het]
  | cons f rest ih =>
    rw [insertByTs]
    split
    · simp [List.filter_cons, het]
    · simp [List.filter_cons, ih]

theorem sortBatch_filter_ts (t : Int) (l : List Envelope) :
    (sortBatch l).filter (fun x => decide (x.timestamp = t)) =
      l.filter (fun x => decide (x.timestamp = t)) := by
  induction l with
  | nil => rfl
  | cons e rest ih =>
    rw [sortBatch]
    by_cases het : e.timestamp = t
    · rw [filter_insertByTs_eq t e _ het, ih, List.filter_cons, if_pos (by simpa)]
    · rw [filter_insertByTs_ne t e _ het, ih, List.filter_cons, if_neg (by simpa)]

theorem writeLines_all_ok (ls : List String) :
    writeLines (fun _ => true) ls = (ls, true) := by
  induction ls with
  | nil => rfl
  | cons l rest ih => simp [writeLines, ih]

theorem processBatch_fresh_of_unseen {c : Cursor} {batch : List Envelope}
    (h : ∀ e ∈ batch, identity e ∉ c.seen) :
    (processBatch c batch).1 = sortBatch batch := by
  simp only [processBatch]
  exact List.filter_eq_self.mpr fun e he =>
    decide_eq_true (h e ((sortBatch_perm batch).mem_iff.mp he))

theorem foldlMaxTs_spec (l : List Envelope) (a : Int) :
    a ≤ l.foldl (fun m x => max m x.timestamp) a ∧
    (∀ x ∈ l, x.timestamp ≤ l.foldl (fun m x => max m x.timestamp) a) ∧
    (l.foldl (fun m x => max m x.timestamp) a = a ∨
      l.foldl (fun m x => max m x.timestamp) a ∈ l.map (·.timestamp)) := by
  induction l generalizing a with
  | nil => simp
  | cons y ys ih =>
    simp only [List.foldl_cons, List.map_cons, List.mem_cons]
    obtain ⟨h1, h2, h3⟩ := ih (max a y.timestamp)
    refine ⟨le_trans (le_max_left _ _) h1, ?_, ?_⟩
    · intro x hx
      rcases hx with rfl | hx
      · exact le_trans (le_max_right _ _) h1
      · exact h2 x hx
    · rcases h3 with h3 | h3
      · rcases max_choice a y.timestamp with hm | hm
        · exact Or.inl (h3.trans hm)
        · exact Or.inr (Or.inl (h3.trans hm))
      · exact Or.inr (Or.inr h3)

/-! ## Claim theorems -/

/-- C1: For every input batch of envelopes, in any server order, the lines
rendered for that batch are written to the output sink in non-decreasing
timestamp order, with ties broken by the original server order (stable
sort): the sorted batch is non-decreasing by timestamp, its equal-timestamp
envelopes keep their original relative order (the filter characterization of
stability), the net-new emitted batch inherits the order, and in one-shot
mode with a healthy sink the written lines are exactly the renderings of the
sorted batch. -/
theorem tail_output_sorted_stable (c : Cursor) (batch : List Envelope)
    (fmtTs fmtDur : Int → String) :
    List.Sorted (fun a b => a.timestamp ≤ b.timestamp) (sortBatch batch) ∧
    (∀ t : Int, (sortBatch batch).filter (fun x => decide (x.timestamp = t)) =
      batch.filter (fun x => decide (x.timestamp = t))) ∧
    List.Sorted (fun a b => a.timestamp ≤ b.timestamp) (processBatch c batch).1 ∧
    (runOneShot (render fmtTs fmtDur) (fun _ => true) (.ok batch)).1 =
      (sortBatch batch).map (render fmtTs fmtDur) := by
  refine ⟨sortBatch_sorted batch, fun t => sortBatch_filter_ts t batch, ?_, ?_⟩
  · show List.Sorted _ ((sortBatch batch).filter _)
    exact List.Pairwise.sublist (List.filter_sublist _) (sortBatch_sorted batch)
  · show (writeLines (fun _ => true)
      (((processBatch initCursor batch).1).map (render fmtTs fmtDur))).1 = _
    rw [processBatch_fresh_of_unseen (by simp [initCursor]), writeLines_all_ok]

/-- C2: feeding the same batch twice through the Cursor & Dedup Tracker emits
the full batch (in sorted order, a permutation of the input) on the first
pass and an empty result on the second pass, every envelope whose identity is
already in the seen set being dropped. -/
theorem dedup_idempotent (c : Cursor) (batch : List Envelope)
    (h : ∀ e ∈ batch, identity e ∉ c.seen) :
    (processBatch c batch).1 = sortBatch batch ∧
    List.Perm (sortBatch batch) batch ∧
    (processBatch (processBatch c batch).2 batch).1 = [] := by
  refine ⟨processBatch_fresh_of_unseen h, sortBatch_perm batch, ?_⟩
  have hseen : (processBatch c batch).2.seen =
      c.seen ++ (sortBatch batch).map identity := by
    show c.seen ++ ((processBatch c batch).1).map identity = _
    rw [processBatch_fresh_of_unseen h]
  show ((sortBatch batch).filter
    (fun e => decide (identity e ∉ (processBatch c batch).2.seen))) = []
  apply List.filter_eq_nil_iff.mpr
  intro e he
  simp only [decide_eq_true_eq, not_not]
  rw [hseen]
  exact List.mem_append_right _ (List.mem_map_of_mem identity he)

/-- Witness for `dedup_idempotent` at a concrete two-envelope batch from a
fresh cursor. -/
theorem dedup_idempotent_witness :
    (∀ e ∈ [(⟨"app-name", "0", 2, .log "log body" .err⟩ : Envelope),
            ⟨"app-name", "0", 1, .log "log body" .out⟩],
      identity e ∉ initCursor.seen) ∧
    ((processBatch initCursor
        [⟨"app-name", "0", 2, .log "log body" .err⟩,
         ⟨"app-name", "0", 1, .log "log body" .out⟩]).1 =
      sortBatch [⟨"app-name", "0", 2, .log "log body" .err⟩,
                 ⟨"app-name", "0", 1, .log "log body" .out⟩] ∧
     List.Perm (sortBatch [⟨"app-name", "0", 2, .log "log body" .err⟩,
                           ⟨"app-name", "0", 1, .log "log body" .out⟩])
       [⟨"app-name", "0", 2, .log "log body" .err⟩,
        ⟨"app-name", "0", 1, .log "log body" .out⟩] ∧
     (processBatch
        (processBatch initCursor
          [⟨"app-name", "0", 2, .log "log body" .err⟩,
           ⟨"app-name", "0", 1, .log "log body" .out⟩]).2
        [⟨"app-name", "0", 2, .log "log body" .err⟩,
         ⟨"app-name", "0", 1, .log "log body" .out⟩]).1 = []) :=
  ⟨by decide, dedup_idempotent initCursor _ (by decide)⟩

/-- C3: after the Cursor & Dedup Tracker processes a non-empty batch,
`next_start` equals the maximum timestamp observed in that batch plus one
nanosecond; after processing an empty batch, `next_start` is unchanged. -/
theorem cursor_advance_max_plus_one (c : Cursor) (e : Envelope)
    (rest : List Envelope) :
    (∃ m, m ∈ (e :: rest).map (fun x => x.timestamp) ∧
      (∀ x ∈ e :: rest, x.timestamp ≤ m) ∧
      (processBatch c (e :: rest)).2.nextStart = m + 1) ∧
    (processBatch c []).2.nextStart = c.nextStart := by
  constructor
  · obtain ⟨h1, h2, h3⟩ := foldlMaxTs_spec rest e.timestamp
    refine ⟨rest.foldl (fun acc (x : Envelope) => max acc x.timestamp) e.timestamp, ?_, ?_, rfl⟩
    · simp only [List.map_cons, List.mem_cons]
      rcases h3 with h3 | h3
      · exact Or.inl h3
      · exact Or.inr (by simpa using h3)
    · intro x hx
      rcases List.mem_cons.mp hx with rfl | hx
      · exact h1
      · exact h2 x hx
  · rfl

/-- C4: the Envelope Renderer maps one envelope to one line for every payload
variant (a total function by construction), and each of the six variants
renders to its documented column layout — including the two documented
literal examples: a Log with level `ERR` and body `"log body"` renders as
`<ts> [app-name/0] LOG/ERR log body`, and a Counter
`{name: some-name, total: 99}` renders as
`<ts> [app-name/0] COUNTER some-name:99`. -/
theorem render_variant_formats (fmtTs fmtDur : Int → String) (ts start stop : Int)
    (src inst name title body : String) (total : Nat)
    (metrics : List GaugeMetric) (tags : List (String × String)) :
    render fmtTs fmtDur ⟨"app-name", "0", ts, .log "log body" .err⟩ =
      fmtTs ts ++ " [app-name/0] LOG/ERR log body" ∧
    render fmtTs fmtDur ⟨"app-name", "0", ts, .counter "some-name" 99⟩ =
      fmtTs ts ++ " [app-name/0] COUNTER some-name:99" ∧
    render fmtTs fmtDur ⟨src, inst, ts, .log body .out⟩ =
      fmtTs ts ++ " [" ++ src ++ "/" ++ inst ++ "] " ++ ("LOG/OUT " ++ body) ∧
    render fmtTs fmtDur ⟨src, inst, ts, .log body .err⟩ =
      fmtTs ts ++ " [" ++ src ++ "/" ++ inst ++ "] " ++ ("LOG/ERR " ++ body) ∧
    render fmtTs fmtDur ⟨src, inst, ts, .counter name total⟩ =
      fmtTs ts ++ " [" ++ src ++ "/" ++ inst ++ "] "
        ++ ("COUNTER " ++ name ++ ":" ++ toString total) ∧
    render fmtTs fmtDur ⟨src, inst, ts, .gauge metrics⟩ =
      fmtTs ts ++ " [" ++ src ++ "/" ++ inst ++ "] "
        ++ ("GAUGE " ++ String.intercalate " "
              (metrics.map (fun m => m.name ++ ":" ++ m.value ++ " " ++ m.unit))) ∧
    render fmtTs fmtDur ⟨src, inst, ts, .timer name start stop⟩ =
      fmtTs ts ++ " [" ++ src ++ "/" ++ inst ++ "] "
        ++ ("TIMER " ++ fmtDur (stop - start)) ∧
    render fmtTs fmtDur ⟨src, inst, ts, .event title body⟩ =
      fmtTs ts ++ " [" ++ src ++ "/" ++ inst ++ "] "
        ++ ("EVENT " ++ title ++ ":" ++ body) ∧
    render fmtTs fmtDur ⟨src, inst, ts, .unknown tags⟩ =
      fmtTs ts ++ " [" ++ src ++ "/" ++ inst ++ "] "
        ++ ("UNKNOWN " ++ String.intercalate " "
              (tags.map (fun kv => kv.1 ++ ":\"" ++ kv.2 ++ "\""))) ∧
    render fmtTs fmtDur ⟨"app-name", "0", ts,
        .gauge [⟨"some-name", "99.000000", "my-unit"⟩,
                ⟨"some-other-name", "101.000000", "my-unit"⟩]⟩ =
      fmtTs ts ++
        " [app-name/0] GAUGE some-name:99.000000 my-unit some-other-name:101.000000 my-unit" ∧
    render fmtTs fmtDur ⟨"app-name", "0", ts, .event "some-title" "some-body"⟩ =
      fmtTs ts ++ " [app-name/0] EVENT some-title:some-body" ∧
    render fmtTs fmtDur ⟨"app-name", "0", ts, .unknown [("foo", "bar")]⟩ =
      fmtTs ts ++ " [app-name/0] UNKNOWN foo:\"bar\"" := by
  refine ⟨?_, ?_, rfl, rfl, rfl, rfl, rfl, rfl, rfl, ?_, ?_, ?_⟩
  all_goals
    simp only [render, renderPayload, levelText, String.append_assoc]
    congr 1

/-- C5: for every decoded log record, the absence of an explicit type tag
yields level `OUT`, an explicit tag value of `"ERR"` yields level `ERR`, and
the body is decoded from its base64 byte encoding to text with a single
trailing newline stripped before rendering. -/
theorem decode_log_level_and_body (r : LogWire) (bs : List Nat)
    (h : base64Decode r.payload.data = some bs) :
    decodeLog r =
      .log (stripTrailingNewline (bytesToText bs)) (decodeLevel r.typeTag) ∧
    (r.typeTag = none → decodeLevel r.typeTag = .out) ∧
    (r.typeTag = some "ERR" → decodeLevel r.typeTag = .err) := by
  refine ⟨?_, ?_, ?_⟩
  · simp [decodeLog, decodeLogBody, h]
  · intro ht
    simp [decodeLevel, ht]
  · intro ht
    simp [decodeLevel, ht]

/-- Witness for `decode_log_level_and_body` at the test suite's wire record:
`"bG9nIGJvZHkK"` is base64 for the bytes of `"log body\n"`, and with an
explicit `"ERR"` tag the record decodes to an `ERR`-level log whose body is
`"log body"` — newline stripped. -/
theorem decode_log_level_and_body_witness :
    base64Decode ("bG9nIGJvZHkK".data) =
      some [108, 111, 103, 32, 98, 111, 100, 121, 10] ∧
    decodeLog ⟨"bG9nIGJvZHkK", some "ERR"⟩ = .log "log body" .err := by
  refine ⟨by decide, ?_⟩
  have h := (decode_log_level_and_body ⟨"bG9nIGJvZHkK", some "ERR"⟩
    [108, 111, 103, 32, 98, 111, 100, 121, 10] (by decide)).1
  rw [h]
  decide

/-- C6: in one-shot mode, a `Timeout` or `Unreachable` poll outcome is fatal:
the invocation terminates with an error whose message indicates the
underlying cause (for a timeout, that a deadline was exceeded), and no output
lines are produced for that failed poll. -/
theorem oneshot_poll_failure_fatal (renderLine : Envelope → String)
    (sinkOk : String → Bool) (p : PollResult)
    (h : p = .timeout ∨ ∃ cause, p = .unreachable cause) :
    (runOneShot renderLine sinkOk p).1 = [] ∧
    ∃ err, (runOneShot renderLine sinkOk p).2 = .error err ∧
      (p = .timeout →
        err = .timeout ∧ TailError.message err = "context deadline exceeded") ∧
      (∀ cause, p = .unreachable cause →
        err = .unreachable cause ∧ TailError.message err = cause) := by
  rcases h with rfl | ⟨cause, rfl⟩
  · exact ⟨rfl, .timeout, rfl, fun _ => ⟨rfl, rfl⟩, fun c hc => by cases hc⟩
  · refine ⟨rfl, .unreachable cause, rfl, ?_, ?_⟩
    · intro hc
      cases hc
    · intro c hc
      cases hc
      exact ⟨rfl, rfl⟩

/-- Witness for `oneshot_poll_failure_fatal` at a `Timeout` poll. -/
theorem oneshot_poll_failure_fatal_witness :
    ((PollResult.timeout = PollResult.timeout ∨
        ∃ cause, PollResult.timeout = PollResult.unreachable cause) ∧
      ((runOneShot (fun _ => "") (fun _ => true) PollResult.timeout).1 = [] ∧
       ∃ err,
         (runOneShot (fun _ => "") (fun _ => true) PollResult.timeout).2 =
           .error err ∧
         (PollResult.timeout = PollResult.timeout →
           err = .timeout ∧
           TailError.message err = "context deadline exceeded") ∧
         (∀ cause, PollResult.timeout = PollResult.unreachable cause →
           err = .unreachable cause ∧ TailError.message err = cause))) :=
  ⟨Or.inl rfl,
    oneshot_poll_failure_fatal (fun _ => "") (fun _ => true) .timeout (Or.inl rfl)⟩

/-- C7: a failure to write rendered lines to the output sink is fatal in
every mode, including follow mode: the engine stops the polling loop
immediately — the result does not depend on the remaining polls — and
surfaces the write failure as the terminal error result. -/
theorem sink_write_failure_fatal (renderLine : Envelope → String)
    (sinkOk : String → Bool) (batch : List Envelope) (c : Cursor)
    (h : (writeLines sinkOk ((processBatch c batch).1.map renderLine)).2 = false) :
    (∀ rest, runFollow renderLine sinkOk (.ok batch :: rest) c =
      ((writeLines sinkOk ((processBatch c batch).1.map renderLine)).1,
        .error .sinkWriteFailure)) ∧
    ((writeLines sinkOk
        ((processBatch initCursor batch).1.map renderLine)).2 = false →
      runOneShot renderLine sinkOk (.ok batch) =
        ((writeLines sinkOk
            ((processBatch initCursor batch).1.map renderLine)).1,
          .error .sinkWriteFailure)) := by
  constructor
  · intro rest
    simp [runFollow, h]
  · intro h0
    simp [runOneShot, h0]

/-- Witness for `sink_write_failure_fatal` with an always-failing sink, a
one-envelope batch and the initial cursor, in both follow and one-shot
mode. -/
theorem sink_write_failure_fatal_witness :
    (writeLines (fun _ => false)
        ((processBatch initCursor
            [⟨"app-name", "0", 1, .log "log body" .err⟩]).1.map
          (fun _ => "line"))).2 = false ∧
    runFollow (fun _ => "line") (fun _ => false)
        [.ok [⟨"app-name", "0", 1, .log "log body" .err⟩]] initCursor =
      ((writeLines (fun _ => false)
          ((processBatch initCursor
              [⟨"app-name", "0", 1, .log "log body" .err⟩]).1.map
            (fun _ => "line"))).1,
        .error .sinkWriteFailure) ∧
    runOneShot (fun _ => "line") (fun _ => false)
        (.ok [⟨"app-name", "0", 1, .log "log body" .err⟩]) =
      ((writeLines (fun _ => false)
          ((processBatch initCursor
              [⟨"app-name", "0", 1, .log "log body" .err⟩]).1.map
            (fun _ => "line"))).1,
        .error .sinkWriteFailure) :=
  ⟨by decide,
    (sink_write_failure_fatal (fun _ => "line") (fun _ => false)
      [⟨"app-name", "0", 1, .log "log body" .err⟩] initCursor (by decide)).1 [],
    (sink_write_failure_fatal (fun _ => "line") (fun _ => false)
      [⟨"app-name", "0", 1, .log "log body" .err⟩] initCursor (by decide)).2
      (by decide)⟩

/-- C8: the tail invocation requires exactly one positional source-id
argument: for every argument list whose length is not one, executing the
command yields the `InvalidArguments` error with no poll issued and no output
written — the outcome is a constant, independent of what any network poll
would have returned. -/
theorem tail_requires_one_arg (renderLine : Envelope → String)
    (sinkOk : String → Bool) (args : List String) (h : args.length ≠ 1)
    (p : PollResult) :
    executeTail renderLine sinkOk args p =
      ⟨[], false, .error .invalidArguments⟩ := by
  match args with
  | [] => rfl
  | [a] => exact absurd rfl h
  | a :: b :: rest => rfl

/-- Witness for `tail_requires_one_arg` at a two-argument invocation. -/
theorem tail_requires_one_arg_witness :
    (["foo", "bar"] : List String).length ≠ 1 ∧
    executeTail (fun _ => "") (fun _ => true) ["foo", "bar"] (.ok []) =
      ⟨[], false, .error .invalidArguments⟩ :=
  ⟨by decide,
    tail_requires_one_arg (fun _ => "") (fun _ => true) ["foo", "bar"]
      (by decide) (.ok [])⟩

/-- C9: the Meta command's name resolution partitions any list of source ids
into consecutive lookup groups of at most 50 ids — the groups concatenate
back to the original list (so every id appears in exactly one group and the
union of the groups covers all ids), each group has at most 50 ids, and no
empty lookup call is issued.  The same chunking loop is shared by the
`/v3/apps` and `/v2/service_instances` lookups. -/
theorem meta_lookup_batches (l : List String) :
    (chunkSourceIDs l).flatten = l ∧
    ∀ c ∈ chunkSourceIDs l, c.length ≤ 50 ∧ c ≠ [] := by
  induction l using chunkSourceIDs.induct with
  | case1 => simp [chunkSourceIDs]
  | case2 x hx n ih =>
    have hpos : 0 < x.length := List.length_pos.mpr hx
    have hn : n = if x.length < 50 then x.length else 50 := rfl
    rw [chunkSourceIDs, dif_neg hx]
    simp only [List.flatten_cons, ← hn]
    constructor
    · rw [ih.1, List.take_append_drop]
    · intro c hc
      rcases List.mem_cons.mp hc with rfl | hc
      · refine ⟨?_, ?_⟩
        · rw [List.length_take, hn]
          split <;> omega
        · apply List.ne_nil_of_length_pos
          rw [List.length_take, hn]
          split <;> omega
      · exact ih.2 c hc

/-- C10: the Meta command's scope validation accepts the empty string —
`invalidScope ""` returns `false` even though `""` is not one of the three
valid scopes — and with the empty scope none of the three row-printing
passes runs, so only the header output is written. -/
theorem meta_empty_scope_accepted :
    invalidScope "" = false ∧
    "" ∉ validScopes ∧
    appsRowPassRuns "" = false ∧
    platformRowPassRuns "" = false ∧
    ∀ namedApps unnamedApps platformRows : List String,
      metaTableRows "" namedApps unnamedApps platformRows = [] := by
  refine ⟨by decide, by decide, by decide, by decide, ?_⟩
  intro namedApps unnamedApps platformRows
  simp [metaTableRows, appsRowPassRuns, platformRowPassRuns]

end LogCacheCLI
